import Mathlib

/-!
Shallow embedding of the Trello_Automation repository (src/function.py,
src/main.py, src/token_delete/main.py) and proofs about its advertised
behaviour.

External effects (the Google Calendar HTTP API, the Trello HTTP API, the
file system) are modelled by explicit state passing; a Python exception is
an `Except` error value, and where an exception escapes mid-mutation the
error value carries the state reached so far.
-/

namespace TrelloAutomation

/-! ## Calendar side: `src/function.py` -/

/-- A calendar date, the result of
`datetime.datetime.strptime(start[:10], '%Y-%m-%d').date()`. -/
structure Date where
  year : Nat
  month : Nat
  day : Nat
deriving DecidableEq

/-- Gregorian leap-year rule used by Python's `datetime` validation. -/
def isLeap (y : Nat) : Bool :=
  y % 4 == 0 && (y % 100 != 0 || y % 400 == 0)

/-- Number of days `datetime.date` accepts for a given year and month. -/
def daysInMonth (y m : Nat) : Nat :=
  if m = 2 then (if isLeap y then 29 else 28)
  else if m = 4 ∨ m = 6 ∨ m = 9 ∨ m = 11 then 30
  else 31

/-- Splits a character list at every `'-'`, the field punctuation of the
`'%Y-%m-%d'` format. -/
def splitOnDashAux (cur : List Char) : List Char → List (List Char)
  | [] => [cur.reverse]
  | c :: cs =>
    if c = '-' then cur.reverse :: splitOnDashAux [] cs
    else splitOnDashAux (c :: cur) cs

/-- Decimal value of a digit string. -/
def digitsVal (cs : List Char) : Nat :=
  cs.foldl (fun n c => n * 10 + (c.toNat - 48)) 0

/-- Models `datetime.datetime.strptime(s, '%Y-%m-%d')` on the characters
of `s`: exactly four digits of year, a dash, one or two digits of month,
a dash, one or two digits of day, nothing else; the month is 1..12, the
day 1..31 and within the month, the year at least 1.  Returns `none`
where `strptime` (or the `datetime.date` constructor) raises
`ValueError`. -/
def parseDateChars (cs : List Char) : Option Date :=
  match splitOnDashAux [] cs with
  | [ys, ms, ds] =>
    if ys.length = 4 ∧ ys.all Char.isDigit
        ∧ 1 ≤ ms.length ∧ ms.length ≤ 2 ∧ ms.all Char.isDigit
        ∧ 1 ≤ ds.length ∧ ds.length ≤ 2 ∧ ds.all Char.isDigit then
      let y := digitsVal ys
      let m := digitsVal ms
      let d := digitsVal ds
      if 1 ≤ y ∧ 1 ≤ m ∧ m ≤ 12 ∧ 1 ≤ d ∧ d ≤ daysInMonth y m then
        some ⟨y, m, d⟩
      else none
    else none
  | _ => none

/-- Models `datetime.datetime.strptime(start[:10], '%Y-%m-%d').date()`:
parse the first ten characters of the chosen start string. -/
def parseStart (s : String) : Option Date :=
  parseDateChars (s.data.take 10)

/-- The `event['start']` dictionary: optional `dateTime` and `date`
entries (`none` models an absent key). -/
structure EventStart where
  dateTime : Option String
  date : Option String
deriving DecidableEq

/-- One event dictionary returned by the Calendar API; `start = none`
models a missing `'start'` key, `summary = none` a missing `'summary'`
key. -/
structure GEvent where
  start : Option EventStart
  summary : Option String
deriving DecidableEq

/-- The `start` string picked by the code: `event['start'].get('dateTime')`
when that is truthy (present and non-empty), else
`event['start'].get('date')`.  `none` means Python's `start` variable is
`None`. -/
def effStartStr (st : EventStart) : Option String :=
  match st.dateTime with
  | some s => if s = "" then st.date else some s
  | none => st.date

/-- The effective start date of an event: the parsed first ten characters
of the chosen start string, when everything is present and parses. -/
def effDate (e : GEvent) : Option Date :=
  match e.start with
  | none => none
  | some st =>
    match effStartStr st with
    | none => none
    | some s => parseStart s

/-- The loop body of `todays_event` on one event.  `.error ()` is a raised
exception: `KeyError` on a missing `'start'`, `TypeError` when the chosen
start string is `None`, `ValueError` when the date fails to parse, and
`KeyError` on a missing `'summary'` — the last only when the event's date
equals `today`.  `.ok (some t)` appends title `t`, `.ok none` skips. -/
def processEvent (today : Date) (e : GEvent) : Except Unit (Option String) :=
  match e.start with
  | none => .error ()
  | some st =>
    match effStartStr st with
    | none => .error ()
    | some s =>
      match parseStart s with
      | none => .error ()
      | some d =>
        if d = today then
          match e.summary with
          | none => .error ()
          | some t => .ok (some t)
        else .ok none

/-- The `for event in events` loop of `todays_event`, collecting matching
titles in order; any raised exception aborts the loop. -/
def processEvents (today : Date) : List GEvent → Except Unit (List String)
  | [] => .ok []
  | e :: es =>
    match processEvent today e with
    | .error u => .error u
    | .ok r =>
      match processEvents today es with
      | .error u => .error u
      | .ok rest =>
        match r with
        | some t => .ok (t :: rest)
        | none => .ok rest

/-- Models `todays_event()`: the fetch (credentials, service build, API call) is
abstracted as an `Except Unit (List GEvent)`; the surrounding
`try/except` turns every error — of the fetch or of the filtering loop —
into the empty list. -/
def todays_event (fetch : Except Unit (List GEvent)) (today : Date) :
    List String :=
  match fetch with
  | .error _ => []
  | .ok events =>
    match processEvents today events with
    | .error _ => []
    | .ok titles => titles

/-- The pickled credential object, reduced to the three attributes the
code inspects: `valid`, `expired`, `refresh_token` (truthiness of the
refresh handle). -/
structure Creds where
  valid : Bool
  expired : Bool
  refresh_token : Bool
deriving DecidableEq

/-- Outcomes of the two external auth operations: `refreshResult = none`
means `creds.refresh(Request())` raises, `flowResult = none` means the
interactive flow raises. -/
structure AuthEnv where
  refreshResult : Option Creds
  flowResult : Option Creds

/-- Models `get_credentials()`.  `file` is the content of `token.pickle`
(`none` when the file does not exist).  Returns the credential handed
back, the final file content, and whether the function wrote the file;
`.error ()` is a fatal acquisition failure. -/
def get_credentials (env : AuthEnv) (file : Option Creds) :
    Except Unit (Creds × Option Creds × Bool) :=
  match file with
  | some c =>
    if c.valid then .ok (c, some c, false)
    else
      let creds1 : Option Creds :=
        if c.expired && c.refresh_token then env.refreshResult else some c
      match creds1 with
      | some c1 => .ok (c1, some c1, true)
      | none =>
        match env.flowResult with
        | some c2 => .ok (c2, some c2, true)
        | none => .error ()
  | none =>
    match env.flowResult with
    | some c2 => .ok (c2, some c2, true)
    | none => .error ()

/-! ## Board side: `src/main.py` -/

/-- A mutation of the Trello board, recorded in the order the API calls
succeed. -/
inductive Ev where
  | archiveDone
  | archiveTodo
  | addCard (title : String)
deriving DecidableEq

/-- The board state seen through the two lists the manager resolves,
together with the trace of successful mutations. -/
structure St where
  todo : List String
  done : List String
  log : List Ev
deriving DecidableEq

/-- Which Trello API calls raise.  `failAdd t` makes
`todo_list.add_card(t)` raise. -/
structure Env where
  failListCards : Bool
  failArchiveDone : Bool
  failArchiveTodo : Bool
  failAdd : String → Bool

/-- Models `self.todo_list.list_cards()`; the error value carries the untouched
state. -/
def listCards (env : Env) (s : St) : Except St (List String) :=
  if env.failListCards then .error s else .ok s.todo

/-- Models `self.done_list.archive_all_cards()`. -/
def archiveAllDone (env : Env) (s : St) : Except St St :=
  if env.failArchiveDone then .error s
  else .ok { s with done := [], log := s.log ++ [Ev.archiveDone] }

/-- Models `self.todo_list.archive_all_cards()`. -/
def archiveAllTodo (env : Env) (s : St) : Except St St :=
  if env.failArchiveTodo then .error s
  else .ok { s with todo := [], log := s.log ++ [Ev.archiveTodo] }

/-- Models `self.todo_list.add_card(t)`: appends the card at the bottom of the
to-do list. -/
def addCard (env : Env) (t : String) (s : St) : Except St St :=
  if env.failAdd t then .error s
  else .ok { s with todo := s.todo ++ [t], log := s.log ++ [Ev.addCard t] }

/-- A `for` loop of `add_card` calls; an exception aborts the loop with
the cards added so far kept. -/
def addCards (env : Env) (ts : List String) (s : St) : Except St St :=
  match ts with
  | [] => .ok s
  | t :: rest =>
    match addCard env t s with
    | .ok s1 => addCards env rest s1
    | .error s1 => .error s1

/-- Value of `self.everyday_todo` from `TrelloTodoManager.__init__`. -/
def everyday_todo : List String :=
  ["読書",
   "筋トレ or ランニング",
   "技術に触れる",
   "プロテイン1",
   "プロテイン2",
   "朝のサプリ",
   "夜のサプリ",
   "pao1",
   "pao2",
   "くすり",
   "歯磨き",
   "ワセリン"]

/-- Value of `self.classes` from `TrelloTodoManager.__init__`: `none` models an
absent key. -/
def classes (day : String) : Option (List String) :=
  if day = "Mon" then some []
  else if day = "Tue" then some []
  else if day = "Wed" then some []
  else if day = "Thu" then some []
  else if day = "Fri" then some ["Workday", "CATS"]
  else if day = "Sat" then some ["トイレ掃除"]
  else if day = "Sun" then some ["Skin Care"]
  else none

/-- Models `self.classes.get(day, [])`. -/
def classesGetD (day : String) : List String :=
  (classes day).getD []

/-- Models `TrelloTodoManager.add_day_specific_todos`: adds the day's cards; its
`except` clause logs and does not re-raise, so the call always returns
normally, keeping the cards added before a failure. -/
def add_day_specific_todos (env : Env) (day : String) (s : St) :
    Except St St :=
  match addCards env (classesGetD day) s with
  | .ok s1 => .ok s1
  | .error s1 => .ok s1

/-- Steps 2–4 of `TrelloTodoManager.manage_daily_todos`, from the
unconditional `todo_list.archive_all_cards()` on: archive the to-do
list, add the everyday cards, add the day-specific cards. -/
def manage_steps234 (env : Env) (day : String) (s1 : St) : Except St St :=
  match archiveAllTodo env s1 with
  | .error s2 => .error s2
  | .ok s2 =>
    match addCards env everyday_todo s2 with
    | .error s3 => .error s3
    | .ok s3 => add_day_specific_todos env day s3

/-- Models `TrelloTodoManager.manage_daily_todos`: conditional done-list
archive, unconditional to-do archive, everyday cards, then day-specific
cards.  Its `except` clause logs and re-raises, so an exception from any
step other than `add_day_specific_todos` propagates. -/
def manage_daily_todos (env : Env) (day : String) (s : St) : Except St St :=
  match listCards env s with
  | .error s1 => .error s1
  | .ok cards =>
    match (if cards.isEmpty then archiveAllDone env s else .ok s) with
    | .error s1 => .error s1
    | .ok s1 => manage_steps234 env day s1

/-- Models `TrelloTodoManager.add_schedule_todos`: adds one card per schedule
entry; its `except` clause logs and does not re-raise. -/
def add_schedule_todos (env : Env) (schedule : List String) (s : St) :
    Except St St :=
  match addCards env schedule s with
  | .ok s1 => .ok s1
  | .error s1 => .ok s1

/-- The daily reconciliation performed by `main()`:
`manage_daily_todos` then `add_schedule_todos(todays_event())`; an
exception from the former stops the run before the latter. -/
def run (env : Env) (day : String) (titles : List String) (s : St) :
    Except St St :=
  match manage_daily_todos env day s with
  | .error s1 => .error s1
  | .ok s1 => add_schedule_todos env titles s1

/-- The board state an execution reaches, whether it returned or raised.
-/
def resSt (r : Except St St) : St :=
  match r with
  | .ok s => s
  | .error s => s

/-- An environment in which no Trello API call raises. -/
def Env.noFail (env : Env) : Prop :=
  env.failListCards = false ∧ env.failArchiveDone = false ∧
  env.failArchiveTodo = false ∧ ∀ t, env.failAdd t = false

/-- Models `self.board.list_lists()[0]` and `[1]` in
`TrelloTodoManager.__init__`: the first list is the to-do list, the
second the done list; with fewer than two lists the indexing raises
`IndexError`, which no `except` clause of `__init__` catches. -/
def resolve_lists {α : Type} (lists : List α) : Except Unit (α × α) :=
  match lists with
  | l0 :: l1 :: _ => .ok (l0, l1)
  | _ => .error ()

/-! ## Purge utility: `src/token_delete/main.py` -/

/-- What a path names on disk. -/
inductive PathKind where
  | file
  | notFile
  | absent
deriving DecidableEq

/-- Outcome of `os.remove` on a path: success, `PermissionError`, or any
other exception. -/
inductive RemoveOutcome where
  | okRemove
  | permError
  | otherError
deriving DecidableEq

/-- The file system as the utility sees it: what each path names, and
how `os.remove` behaves on it. -/
structure FileSys where
  kind : String → PathKind
  removeOutcome : String → RemoveOutcome

/-- One log line emitted for a path. -/
inductive DelLog where
  | deleted (p : String)
  | warnNotFile (p : String)
  | warnAbsent (p : String)
  | errPermission (p : String)
  | errOther (p : String)
deriving DecidableEq

/-- The path a log line is about. -/
def DelLog.path : DelLog → String
  | .deleted p => p
  | .warnNotFile p => p
  | .warnAbsent p => p
  | .errPermission p => p
  | .errOther p => p

/-- The `try` body of `delete_specific_files` on one path, including the
two `except` clauses: returns the updated view of the disk and the log
line. -/
def deleteOneStep (fsys : FileSys) (k : String → PathKind) (p : String) :
    (String → PathKind) × DelLog :=
  match k p with
  | .file =>
    match fsys.removeOutcome p with
    | .okRemove => (fun q => if q = p then PathKind.absent else k q, .deleted p)
    | .permError => (k, .errPermission p)
    | .otherError => (k, .errOther p)
  | .notFile => (k, .warnNotFile p)
  | .absent => (k, .warnAbsent p)

/-- The `for file_path in file_paths` loop, threading the disk state. -/
def deleteFilesAux (fsys : FileSys) (k : String → PathKind) :
    List String → (String → PathKind) × List DelLog
  | [] => (k, [])
  | p :: rest =>
    let step := deleteOneStep fsys k p
    let tail := deleteFilesAux fsys step.1 rest
    (tail.1, step.2 :: tail.2)

/-- Models `delete_specific_files(file_paths)`: a total function — every
per-path exception is caught inside the loop, so nothing propagates to
the caller. -/
def delete_specific_files (fsys : FileSys) (paths : List String) :
    (String → PathKind) × List DelLog :=
  deleteFilesAux fsys fsys.kind paths

/-! ## Auxiliary notions and concrete instances used in the statements -/

/-- State `s2` extends state `s` without ever archiving the done list:
the done list is unchanged and the mutation trace only grew by events
other than `Ev.archiveDone`. -/
def Extends (s s2 : St) : Prop :=
  s2.done = s.done ∧
  ∃ l, s2.log = s.log ++ l ∧ ∀ e ∈ l, e ≠ Ev.archiveDone

/-- An environment in which every Trello API call succeeds. -/
def envOK : Env :=
  ⟨false, false, false, fun _ => false⟩

/-- An environment in which only `add_card "X"` raises. -/
def envFailX : Env :=
  ⟨false, false, false, fun t => t == "X"⟩

/-- An environment in which only `todo_list.archive_all_cards()` raises.
-/
def envFailArchTodo : Env :=
  ⟨false, false, true, fun _ => false⟩

/-- An environment in which only `todo_list.list_cards()` raises. -/
def envFailList : Env :=
  ⟨true, false, false, fun _ => false⟩

/-- An environment in which only `done_list.archive_all_cards()` raises.
-/
def envFailArchDone : Env :=
  ⟨false, true, false, fun _ => false⟩

/-- An environment in which only the `add_card` call of the first
everyday task raises. -/
def envFailEveryday : Env :=
  ⟨false, false, false, fun t => t == "読書"⟩

/-- An empty board with an empty trace. -/
def st0 : St :=
  ⟨[], [], []⟩

/-- A board whose to-do list is nonempty. -/
def stBusy : St :=
  ⟨["leftover"], ["finished"], []⟩

/-- A sample current date. -/
def today0 : Date :=
  ⟨2024, 1, 1⟩

/-- A well-formed all-day event dated `today0`. -/
def evGood : GEvent :=
  ⟨some ⟨none, some "2024-01-01"⟩, some "Meet"⟩

/-- An event with no `'summary'` key whose date is not `today0`. -/
def evNoSummary : GEvent :=
  ⟨some ⟨none, some "2099-01-01"⟩, none⟩

/-- An event with no `'start'` key: processing it raises `KeyError`. -/
def evBad : GEvent :=
  ⟨none, none⟩

/-- A cached credential that is still valid. -/
def cValid : Creds :=
  ⟨true, false, false⟩

/-- An auth environment whose interactive flow yields `cValid`. -/
def authEnvFlow : AuthEnv :=
  ⟨none, some cValid⟩

/-- A tiny disk: `"a"` is a regular file, `"b"` a directory, everything
else absent; `os.remove` always succeeds. -/
def fsys1 : FileSys :=
  ⟨fun p => if p = "a" then PathKind.file
            else if p = "b" then PathKind.notFile
            else PathKind.absent,
   fun _ => RemoveOutcome.okRemove⟩

/-! ## Helper lemmas -/

theorem extends_refl (s : St) : Extends s s :=
  ⟨rfl, [], by simp, by simp⟩

theorem extends_trans {s1 s2 s3 : St} (h1 : Extends s1 s2)
    (h2 : Extends s2 s3) : Extends s1 s3 := by
  obtain ⟨hd1, l1, hl1, he1⟩ := h1
  obtain ⟨hd2, l2, hl2, he2⟩ := h2
  refine ⟨hd2.trans hd1, l1 ++ l2, ?_, ?_⟩
  · rw [hl2, hl1, List.append_assoc]
  · intro e he
    rcases List.mem_append.mp he with h | h
    · exact he1 e h
    · exact he2 e h

theorem extends_addCards (env : Env) (ts : List String) (s : St) :
    Extends s (resSt (addCards env ts s)) := by
  induction ts generalizing s with
  | nil => exact extends_refl s
  | cons t rest ih =>
    by_cases hf : env.failAdd t
    · simp only [addCards, addCard, hf, if_true]
      exact extends_refl s
    · simp only [addCards, addCard, hf, if_false, Bool.false_eq_true]
      refine extends_trans ?_ (ih _)
      exact ⟨rfl, [Ev.addCard t], rfl, by simp⟩

theorem resSt_add_day (env : Env) (day : String) (s : St) :
    resSt (add_day_specific_todos env day s) =
      resSt (addCards env (classesGetD day) s) := by
  unfold add_day_specific_todos
  cases addCards env (classesGetD day) s <;> rfl

theorem resSt_add_sched (env : Env) (sched : List String) (s : St) :
    resSt (add_schedule_todos env sched s) =
      resSt (addCards env sched s) := by
  unfold add_schedule_todos
  cases addCards env sched s <;> rfl

theorem extends_archiveTodo (env : Env) (s1 : St) :
    Extends s1 (resSt (archiveAllTodo env s1)) := by
  by_cases hf : env.failArchiveTodo
  · simp only [archiveAllTodo, hf, if_true]
    exact extends_refl s1
  · simp only [archiveAllTodo, hf, Bool.false_eq_true, if_false]
    exact ⟨rfl, [Ev.archiveTodo], rfl, by simp⟩

theorem extends_steps234 (env : Env) (day : String) (s1 : St) :
    Extends s1 (resSt (manage_steps234 env day s1)) := by
  cases ha : archiveAllTodo env s1 with
  | error s2 =>
    have h1 := extends_archiveTodo env s1
    rw [ha] at h1
    have heq : manage_steps234 env day s1 = Except.error s2 := by
      simp [manage_steps234, ha]
    rw [heq]
    exact h1
  | ok s2 =>
    have h1 := extends_archiveTodo env s1
    rw [ha] at h1
    cases hc : addCards env everyday_todo s2 with
    | error s3 =>
      have h2 := extends_addCards env everyday_todo s2
      rw [hc] at h2
      have heq : manage_steps234 env day s1 = Except.error s3 := by
        simp [manage_steps234, ha, hc]
      rw [heq]
      exact extends_trans h1 h2
    | ok s3 =>
      have h2 := extends_addCards env everyday_todo s2
      rw [hc] at h2
      have heq : manage_steps234 env day s1 =
          add_day_specific_todos env day s3 := by
        simp [manage_steps234, ha, hc]
      rw [heq, resSt_add_day]
      exact extends_trans h1
        (extends_trans h2 (extends_addCards env (classesGetD day) s3))

theorem addCards_ok (env : Env) (h : ∀ t, env.failAdd t = false)
    (ts : List String) (s : St) :
    addCards env ts s =
      .ok ⟨s.todo ++ ts, s.done, s.log ++ ts.map Ev.addCard⟩ := by
  induction ts generalizing s with
  | nil => simp [addCards]
  | cons t rest ih =>
    simp only [addCards, addCard, h t, Bool.false_eq_true, if_false]
    rw [ih]
    simp

theorem extends_manage (env : Env) (day : String) (s : St)
    (h : s.todo ≠ []) : Extends s (resSt (manage_daily_todos env day s)) := by
  by_cases hl : env.failListCards
  · have heq : manage_daily_todos env day s = Except.error s := by
      simp [manage_daily_todos, listCards, hl]
    rw [heq]
    exact extends_refl s
  · have hni : s.todo.isEmpty = false := by
      cases hsd : s.todo with
      | nil => exact absurd hsd h
      | cons a l => rfl
    have heq : manage_daily_todos env day s = manage_steps234 env day s := by
      simp [manage_daily_todos, listCards, hl, hni]
    rw [heq]
    exact extends_steps234 env day s

theorem extends_run_of_manage (env : Env) (day : String)
    (titles : List String) (s : St) :
    Extends (resSt (manage_daily_todos env day s))
      (resSt (run env day titles s)) := by
  cases hm : manage_daily_todos env day s with
  | error s1 =>
    have heq : run env day titles s = Except.error s1 := by
      simp [run, hm]
    rw [heq]
    exact extends_refl s1
  | ok s1 =>
    have heq : run env day titles s = add_schedule_todos env titles s1 := by
      simp [run, hm]
    rw [heq, resSt_add_sched]
    exact extends_addCards env titles s1

/-! ## Claim C9 -/

/-- C9: the constructor takes the first list of the board as the to-do
list and the second as the done list, and with fewer than two lists the
indexing error propagates out of `__init__` (whose `except` clauses do
not catch `IndexError`). -/
theorem C9_board_list_resolution {α : Type} (lists : List α) :
    (∀ l0 l1 rest, lists = l0 :: l1 :: rest →
      resolve_lists lists = Except.ok (l0, l1)) ∧
    (lists.length < 2 → resolve_lists lists = Except.error ()) := by
  constructor
  · rintro l0 l1 rest rfl
    rfl
  · intro hlen
    match lists, hlen with
    | [], _ => rfl
    | [a], _ => rfl
    | a :: b :: rest, h => simp at h; omega

/-- Witness for C9 at a concrete three-list board and an empty board. -/
theorem C9_board_list_resolution_witness :
    resolve_lists ["todo", "done", "misc"] = Except.ok ("todo", "done") ∧
    resolve_lists ([] : List String) = Except.error () :=
  ⟨(C9_board_list_resolution ["todo", "done", "misc"]).1 "todo" "done"
      ["misc"] rfl,
   (C9_board_list_resolution ([] : List String)).2 (by decide)⟩

/-! ## Claim C8 -/

/-- C8: `todays_event` returns the empty list both when the fetch raises
and when the filtering loop raises; being a total function of the
outcome, it propagates no exception. -/
theorem C8_errors_yield_empty (today : Date) :
    todays_event (Except.error ()) today = [] ∧
    ∀ evs, processEvents today evs = Except.error () →
      todays_event (Except.ok evs) today = [] := by
  refine ⟨rfl, fun evs h => ?_⟩
  simp [todays_event, h]

/-- Witness for C8 at a failing fetch and at a list whose processing
raises. -/
theorem C8_errors_yield_empty_witness :
    todays_event (Except.error ()) today0 = [] ∧
    todays_event (Except.ok [evBad]) today0 = [] :=
  ⟨(C8_errors_yield_empty today0).1,
   (C8_errors_yield_empty today0).2 [evBad] rfl⟩

/-! ## Claim C6 -/

/-- C6: when the to-do list is nonempty at the start of
`manage_daily_todos`, the run performs no done-list archive — the done
list is unchanged and no `archiveDone` mutation is recorded. -/
theorem C6_nonempty_todo_skips_done_archive (env : Env) (day : String)
    (titles : List String) (s : St) (h : s.todo ≠ []) :
    (resSt (run env day titles s)).done = s.done ∧
    (Ev.archiveDone ∈ (resSt (run env day titles s)).log →
      Ev.archiveDone ∈ s.log) := by
  obtain ⟨hd, l, hl, he⟩ :=
    extends_trans (extends_manage env day s h)
      (extends_run_of_manage env day titles s)
  refine ⟨hd, fun hmem => ?_⟩
  rw [hl] at hmem
  rcases List.mem_append.mp hmem with h1 | h1
  · exact h1
  · exact absurd rfl (he _ h1)

/-- Witness for C6 at a concrete busy board. -/
theorem C6_nonempty_todo_skips_done_archive_witness :
    (resSt (run envOK "Mon" [] stBusy)).done = stBusy.done ∧
    (Ev.archiveDone ∈ (resSt (run envOK "Mon" [] stBusy)).log →
      Ev.archiveDone ∈ stBusy.log) :=
  C6_nonempty_todo_skips_done_archive envOK "Mon" [] stBusy (by decide)

/-! ## Claim C7 -/

/-- C7: when the to-do list is empty at the start of
`manage_daily_todos` (and the calls of step 1 do not themselves raise),
the done list ends empty and the `archiveDone` mutation is the first
mutation of the run, in particular earlier than every card addition. -/
theorem C7_empty_todo_archives_done_first (env : Env) (day : String)
    (titles : List String) (s : St)
    (h0 : s.todo = []) (h1 : s.log = [])
    (h2 : env.failListCards = false) (h3 : env.failArchiveDone = false) :
    (resSt (run env day titles s)).done = [] ∧
    ∃ l, (resSt (run env day titles s)).log = Ev.archiveDone :: l := by
  obtain ⟨t0, d0, l0⟩ := s
  simp only [St.mk.injEq] at h0 h1
  subst h0
  subst h1
  have hstep : manage_daily_todos env day ⟨[], d0, []⟩ =
      manage_steps234 env day ⟨[], [], [Ev.archiveDone]⟩ := by
    simp [manage_daily_todos, listCards, archiveAllDone, h2, h3]
  have hext : Extends (⟨[], [], [Ev.archiveDone]⟩ : St)
      (resSt (run env day titles ⟨[], d0, []⟩)) := by
    have ha := extends_run_of_manage env day titles ⟨[], d0, []⟩
    rw [hstep] at ha
    exact extends_trans (extends_steps234 env day ⟨[], [], [Ev.archiveDone]⟩) ha
  obtain ⟨hd, l, hl, he⟩ := hext
  exact ⟨hd, l, hl⟩

/-- Witness for C7 at a concrete board with an empty to-do list. -/
theorem C7_empty_todo_archives_done_first_witness :
    (resSt (run envOK "Sat" ["Meet"] ⟨[], ["finished"], []⟩)).done = [] ∧
    ∃ l, (resSt (run envOK "Sat" ["Meet"] ⟨[], ["finished"], []⟩)).log =
      Ev.archiveDone :: l :=
  C7_empty_todo_archives_done_first envOK "Sat" ["Meet"] ⟨[], ["finished"], []⟩
    rfl rfl rfl rfl

/-! ## Claim C1 -/

/-- C1: a fully successful reconciliation (`manage_daily_todos` then
`add_schedule_todos`, with no API call raising) leaves the to-do list
holding exactly the everyday tasks, then the day-specific tasks, then
the schedule titles, in that order, duplicates included. -/
theorem C1_reconciliation_card_set (env : Env) (day : String)
    (titles : List String) (s : St) (h : env.noFail) :
    ∃ sF, run env day titles s = Except.ok sF ∧
      sF.todo = everyday_todo ++ classesGetD day ++ titles := by
  obtain ⟨h1, h2, h3, h4⟩ := h
  cases h0 : s.todo.isEmpty <;>
    simp [run, manage_daily_todos, manage_steps234, listCards,
      archiveAllDone, archiveAllTodo, add_day_specific_todos,
      add_schedule_todos, h0, h1, h2, h3, addCards_ok env h4]

/-- Witness for C1: a concrete failure-free Friday run. -/
theorem C1_reconciliation_card_set_witness :
    ∃ sF, run envOK "Fri" ["Meet"] stBusy = Except.ok sF ∧
      sF.todo = everyday_todo ++ classesGetD "Fri" ++ ["Meet"] :=
  C1_reconciliation_card_set envOK "Fri" ["Meet"] stBusy
    ⟨rfl, rfl, rfl, fun _ => rfl⟩

/-! ## Claim C3 -/

theorem addCards_error_of_mem (env : Env) :
    ∀ (ts : List String) (s : St), (∃ t ∈ ts, env.failAdd t = true) →
    ∃ s1, addCards env ts s = Except.error s1 := by
  intro ts
  induction ts with
  | nil =>
    intro s h
    obtain ⟨t, ht, -⟩ := h
    cases ht
  | cons a rest ih =>
    intro s h
    by_cases ha : env.failAdd a
    · exact ⟨s, by simp [addCards, addCard, ha]⟩
    · obtain ⟨t, ht, hf⟩ := h
      rcases List.mem_cons.mp ht with rfl | hmem
      · exact absurd hf (by simp [ha])
      · obtain ⟨s1, hs1⟩ :=
          ih { s with todo := s.todo ++ [a], log := s.log ++ [Ev.addCard a] }
            ⟨t, hmem, hf⟩
        exact ⟨s1, by simp [addCards, addCard, ha, hs1]⟩

theorem manage_steps234_error_of_addfail (env : Env) (day : String)
    (s1 : St) (hat : env.failArchiveTodo = false)
    (hmem : ∃ t ∈ everyday_todo, env.failAdd t = true) :
    ∃ s3, manage_steps234 env day s1 = Except.error s3 := by
  obtain ⟨s3, hs3⟩ := addCards_error_of_mem env everyday_todo
    { s1 with todo := [], log := s1.log ++ [Ev.archiveTodo] } hmem
  exact ⟨s3, by simp [manage_steps234, archiveAllTodo, hat, hs3]⟩

/-- C3 (amended): an error in steps 1–3 of the reconciliation is
re-raised (fatal to the run) — a raising `list_cards`, a raising
conditional done-list archive, a raising to-do archive, and a raising
everyday `add_card` each make `manage_daily_todos` propagate the error —
while both step 4's day-specific additions and step 5's
calendar-derived additions swallow errors: `add_day_specific_todos` and
`add_schedule_todos` always return normally. -/
theorem C3_failure_semantics (env : Env) (day : String)
    (sched : List String) (s : St) :
    (∃ s1, add_day_specific_todos env day s = Except.ok s1) ∧
    (∃ s1, add_schedule_todos env sched s = Except.ok s1) ∧
    (env.failListCards = true →
      ∃ s1, manage_daily_todos env day s = Except.error s1) ∧
    (s.todo = [] → env.failListCards = false →
      env.failArchiveDone = true →
      ∃ s1, manage_daily_todos env day s = Except.error s1) ∧
    (env.failArchiveTodo = true →
      ∃ s1, manage_daily_todos env day s = Except.error s1) ∧
    (env.failListCards = false → env.failArchiveDone = false →
      env.failArchiveTodo = false →
      (∃ t ∈ everyday_todo, env.failAdd t = true) →
      ∃ s1, manage_daily_todos env day s = Except.error s1) := by
  refine ⟨?_, ?_, ?_, ?_, ?_, ?_⟩
  · cases h : addCards env (classesGetD day) s with
    | ok s1 => exact ⟨s1, by simp [add_day_specific_todos, h]⟩
    | error s1 => exact ⟨s1, by simp [add_day_specific_todos, h]⟩
  · cases h : addCards env sched s with
    | ok s1 => exact ⟨s1, by simp [add_schedule_todos, h]⟩
    | error s1 => exact ⟨s1, by simp [add_schedule_todos, h]⟩
  · intro hl
    exact ⟨s, by simp [manage_daily_todos, listCards, hl]⟩
  · intro h0 hl hd
    exact ⟨s, by simp [manage_daily_todos, listCards, archiveAllDone,
      hl, h0, hd]⟩
  · intro hf
    by_cases hl : env.failListCards
    · exact ⟨s, by simp [manage_daily_todos, listCards, hl]⟩
    · cases h0 : s.todo.isEmpty with
      | false =>
        exact ⟨s, by simp [manage_daily_todos, manage_steps234, listCards,
          archiveAllTodo, hl, h0, hf]⟩
      | true =>
        by_cases hd : env.failArchiveDone
        · exact ⟨s, by simp [manage_daily_todos, listCards, archiveAllDone,
            hl, h0, hd]⟩
        · exact ⟨{ s with done := [], log := s.log ++ [Ev.archiveDone] },
            by simp [manage_daily_todos, manage_steps234, listCards,
              archiveAllDone, archiveAllTodo, hl, h0, hd, hf]⟩
  · intro hl hd hat hmem
    cases h0 : s.todo.isEmpty with
    | false =>
      have heq : manage_daily_todos env day s = manage_steps234 env day s := by
        simp [manage_daily_todos, listCards, hl, h0]
      obtain ⟨s3, hs3⟩ :=
        manage_steps234_error_of_addfail env day s hat hmem
      exact ⟨s3, heq.trans hs3⟩
    | true =>
      have heq : manage_daily_todos env day s = manage_steps234 env day
          { s with done := [], log := s.log ++ [Ev.archiveDone] } := by
        simp [manage_daily_todos, listCards, archiveAllDone, hl, hd, h0]
      obtain ⟨s3, hs3⟩ := manage_steps234_error_of_addfail env day
        { s with done := [], log := s.log ++ [Ev.archiveDone] } hat hmem
      exact ⟨s3, heq.trans hs3⟩

/-- Counterexample to C3 as stated: with an environment where
`add_card "X"` raises, the inner loop of `add_schedule_todos` does raise,
yet `add_schedule_todos` returns normally — a step-5 error is not fatal.
-/
theorem C3_step5_error_not_fatal :
    addCards envFailX ["X"] st0 = Except.error st0 ∧
    add_schedule_todos envFailX ["X"] st0 = Except.ok st0 := by
  constructor <;> rfl

/-- Witness for C3 (amended) at concrete environments in which,
respectively, `list_cards`, the done-list archive, the to-do archive,
and an everyday `add_card` raise, plus the two swallowing steps. -/
theorem C3_failure_semantics_witness :
    (∃ s1, add_day_specific_todos envFailArchTodo "Fri" st0 =
      Except.ok s1) ∧
    (∃ s1, add_schedule_todos envFailArchTodo ["Meet"] st0 =
      Except.ok s1) ∧
    (∃ s1, manage_daily_todos envFailList "Fri" st0 =
      Except.error s1) ∧
    (∃ s1, manage_daily_todos envFailArchDone "Fri" st0 =
      Except.error s1) ∧
    (∃ s1, manage_daily_todos envFailArchTodo "Fri" st0 =
      Except.error s1) ∧
    (∃ s1, manage_daily_todos envFailEveryday "Fri" st0 =
      Except.error s1) :=
  ⟨(C3_failure_semantics envFailArchTodo "Fri" ["Meet"] st0).1,
   (C3_failure_semantics envFailArchTodo "Fri" ["Meet"] st0).2.1,
   (C3_failure_semantics envFailList "Fri" [] st0).2.2.1 rfl,
   (C3_failure_semantics envFailArchDone "Fri" [] st0).2.2.2.1 rfl rfl rfl,
   (C3_failure_semantics envFailArchTodo "Fri" [] st0).2.2.2.2.1 rfl,
   (C3_failure_semantics envFailEveryday "Fri" [] st0).2.2.2.2.2 rfl rfl rfl
     (by decide)⟩

theorem processEvent_of_wf (today : Date) (e : GEvent) (d : Date)
    (hd : effDate e = some d) (hs : e.summary.isSome) :
    processEvent today e =
      Except.ok (if d = today then e.summary else none) := by
  obtain ⟨t, ht⟩ := Option.isSome_iff_exists.mp hs
  cases hst : e.start with
  | none => simp [effDate, hst] at hd
  | some st =>
    cases hes : effStartStr st with
    | none => simp [effDate, hst, hes] at hd
    | some str =>
      have hp : parseStart str = some d := by
        simpa [effDate, hst, hes] using hd
      by_cases hdt : d = today
      · subst hdt
        simp [processEvent, hst, hes, hp, ht]
      · simp [processEvent, hst, hes, hp, hdt]

theorem processEvents_of_wf (today : Date) (evs : List GEvent)
    (hwf : ∀ e ∈ evs, (effDate e).isSome ∧ e.summary.isSome) :
    processEvents today evs = Except.ok (evs.filterMap
      (fun e => if effDate e = some today then e.summary else none)) := by
  induction evs with
  | nil => rfl
  | cons e es ih =>
    obtain ⟨hd, hs⟩ := hwf e (List.mem_cons_self e es)
    obtain ⟨d, hdd⟩ := Option.isSome_iff_exists.mp hd
    have hpe := processEvent_of_wf today e d hdd hs
    have hrest := ih (fun x hx => hwf x (List.mem_cons_of_mem e hx))
    obtain ⟨t, ht⟩ := Option.isSome_iff_exists.mp hs
    by_cases hdt : d = today
    · subst hdt
      simp [processEvents, hpe, hrest, ht, List.filterMap_cons, hdd]
    · simp [processEvents, hpe, hrest, List.filterMap_cons, hdd, hdt]

theorem processEvents_error_of_mem (today : Date) :
    ∀ (evs : List GEvent) (e : GEvent), e ∈ evs →
      processEvent today e = Except.error () →
      processEvents today evs = Except.error () := by
  intro evs
  induction evs with
  | nil => intro e he _; cases he
  | cons a as ih =>
    intro e he herr
    rcases List.mem_cons.mp he with rfl | hmem
    · simp [processEvents, herr]
    · cases hpa : processEvent today a with
      | error u => cases u; simp [processEvents, hpa]
      | ok r => simp [processEvents, hpa, ih e hmem herr]

/-! ## Claim C2 -/

/-- C2: on a fetched list of at most ten events in which every event has
an effective start date and a title, `todays_event` returns exactly the
titles of the events whose effective date equals today, in input order;
and an event carrying a date-time string classifies exactly like an
all-day event whose date string has the same date portion. -/
theorem C2_todays_event_filters (today : Date) (evs : List GEvent)
    (_hlen : evs.length ≤ 10)
    (hwf : ∀ e ∈ evs, (effDate e).isSome ∧ e.summary.isSome) :
    todays_event (Except.ok evs) today =
      evs.filterMap
        (fun e => if effDate e = some today then e.summary else none) ∧
    ∀ (dt dstr : String) (od os1 os2 : Option String), dt ≠ "" →
      parseStart dt = parseStart dstr →
      effDate ⟨some ⟨some dt, od⟩, os1⟩ =
        effDate ⟨some ⟨none, some dstr⟩, os2⟩ := by
  constructor
  · simp [todays_event, processEvents_of_wf today evs hwf]
  · intro dt dstr od os1 os2 hne hp
    simp [effDate, effStartStr, hne, hp]

/-- Witness for C2 at a one-event list dated `today0`, and at a concrete
date-time string versus all-day string with the same date portion. -/
theorem C2_todays_event_filters_witness :
    todays_event (Except.ok [evGood]) today0 =
      [evGood].filterMap
        (fun e => if effDate e = some today0 then e.summary else none) ∧
    effDate ⟨some ⟨some "2024-01-01T09:00:00+09:00", none⟩, some "a"⟩ =
      effDate ⟨some ⟨none, some "2024-01-01"⟩, some "b"⟩ :=
  ⟨(C2_todays_event_filters today0 [evGood] (by decide) (by decide)).1,
   (C2_todays_event_filters today0 [evGood] (by decide) (by decide)).2
     "2024-01-01T09:00:00+09:00" "2024-01-01" none (some "a") (some "b")
     (by decide) (by decide)⟩

/-! ## Claim C10 -/

/-- C10 (amended): whenever processing some event of the fetched list
raises — missing `'start'`, an unusable start string, or a missing
`'summary'` on an event dated today — the whole call returns the empty
list, discarding every already-matched title; no partial results. -/
theorem C10_event_error_discards_all (today : Date) (evs : List GEvent)
    (e : GEvent) (he : e ∈ evs)
    (herr : processEvent today e = Except.error ()) :
    todays_event (Except.ok evs) today = [] := by
  simp [todays_event, processEvents_error_of_mem today evs e he herr]

/-- Counterexample to C10 as stated: `evNoSummary` lacks a `'summary'`
key (it is malformed), yet because its date is not today its processing
does not raise, and the call returns the later matching title instead of
the empty list. -/
theorem C10_malformed_without_error_kept :
    evNoSummary.summary = none ∧
    todays_event (Except.ok [evNoSummary, evGood]) today0 = ["Meet"] := by
  constructor <;> rfl

/-- Witness for C10 (amended): an event with no `'start'` key makes the
whole call return the empty list even though a later event matches. -/
theorem C10_event_error_discards_all_witness :
    todays_event (Except.ok [evBad, evGood]) today0 = [] :=
  C10_event_error_discards_all today0 [evBad, evGood] evBad
    (by simp) rfl

/-! ## Claim C4 -/

/-- C4 (amended): a successful `get_credentials` call that finds no
valid cached credential (cache file absent, or the cached credential
invalid) writes the credential it returns to the cache file before
returning; a valid cached credential is returned without rewriting the
file. -/
theorem C4_persists_unless_cached_valid (env : AuthEnv)
    (file : Option Creds) (r : Creds) (f2 : Option Creds) (w : Bool) :
    ((∀ c, file = some c → c.valid = false) →
      get_credentials env file = Except.ok (r, f2, w) →
      w = true ∧ f2 = some r) ∧
    (∀ c, c.valid = true →
      get_credentials env (some c) = Except.ok (c, some c, false)) := by
  constructor
  · intro hnv hok
    cases file with
    | none =>
      cases hf : env.flowResult with
      | none => simp [get_credentials, hf] at hok
      | some c2 =>
        simp [get_credentials, hf] at hok
        obtain ⟨h1, h2, h3⟩ := hok
        subst h1
        subst h2
        subst h3
        exact ⟨rfl, rfl⟩
    | some c =>
      have hc : c.valid = false := hnv c rfl
      cases hcr : c.expired && c.refresh_token with
      | true =>
        cases hr : env.refreshResult with
        | some c1 =>
          simp [get_credentials, hc, hcr, hr] at hok
          obtain ⟨h1, h2, h3⟩ := hok
          subst h1
          subst h2
          subst h3
          exact ⟨rfl, rfl⟩
        | none =>
          cases hf : env.flowResult with
          | none => simp [get_credentials, hc, hcr, hr, hf] at hok
          | some c2 =>
            simp [get_credentials, hc, hcr, hr, hf] at hok
            obtain ⟨h1, h2, h3⟩ := hok
            subst h1
            subst h2
            subst h3
            exact ⟨rfl, rfl⟩
      | false =>
        simp [get_credentials, hc, hcr] at hok
        obtain ⟨h1, h2, h3⟩ := hok
        subst h1
        subst h2
        subst h3
        exact ⟨rfl, rfl⟩
  · intro c hv
    simp [get_credentials, hv]

/-- Counterexample to C4 as stated: when `token.pickle` holds a still
valid credential, `get_credentials` succeeds and returns it without
writing the file (the write flag is `false`). -/
theorem C4_valid_cache_not_rewritten :
    cValid.valid = true ∧
    get_credentials authEnvFlow (some cValid) =
      Except.ok (cValid, some cValid, false) :=
  ⟨rfl, rfl⟩

/-- Witness for C4 (amended): with no cache file the interactive flow's
credential is written before being returned. -/
theorem C4_persists_unless_cached_valid_witness :
    (true : Bool) = true ∧ (some cValid : Option Creds) = some cValid :=
  (C4_persists_unless_cached_valid authEnvFlow none cValid (some cValid)
      true).1 (fun c h => by cases h) rfl

theorem deleteOneStep_path (fsys : FileSys) (k : String → PathKind)
    (p : String) : (deleteOneStep fsys k p).2.path = p := by
  cases h1 : k p <;> cases h2 : fsys.removeOutcome p <;>
    simp [deleteOneStep, h1, h2, DelLog.path]

theorem deleteOneStep_kind (fsys : FileSys) (k : String → PathKind)
    (p q : String) :
    (deleteOneStep fsys k p).1 q =
      if q = p ∧ k p = PathKind.file ∧
          fsys.removeOutcome p = RemoveOutcome.okRemove
      then PathKind.absent else k q := by
  cases h1 : k p <;> cases h2 : fsys.removeOutcome p <;>
    simp [deleteOneStep, h1, h2]

theorem deleteOneStep_log_congr (fsys : FileSys)
    (k1 k2 : String → PathKind) (p : String) (h : k1 p = k2 p) :
    (deleteOneStep fsys k1 p).2 = (deleteOneStep fsys k2 p).2 := by
  cases hk : k2 p <;> cases hro : fsys.removeOutcome p <;>
    simp [deleteOneStep, h, hk, hro]

theorem deleteFilesAux_paths (fsys : FileSys) :
    ∀ (paths : List String) (k : String → PathKind),
    (deleteFilesAux fsys k paths).2.map DelLog.path = paths := by
  intro paths
  induction paths with
  | nil => intro k; rfl
  | cons p rest ih =>
    intro k
    simp [deleteFilesAux, deleteOneStep_path, ih]

theorem deleteFilesAux_kind (fsys : FileSys) :
    ∀ (paths : List String) (k : String → PathKind) (q : String),
    (deleteFilesAux fsys k paths).1 q =
      if q ∈ paths ∧ k q = PathKind.file ∧
          fsys.removeOutcome q = RemoveOutcome.okRemove
      then PathKind.absent else k q := by
  intro paths
  induction paths with
  | nil => intro k q; simp [deleteFilesAux]
  | cons p rest ih =>
    intro k q
    simp only [deleteFilesAux]
    rw [ih, deleteOneStep_kind]
    by_cases hq : q = p
    · by_cases hf : k p = PathKind.file
      · by_cases hro : fsys.removeOutcome p = RemoveOutcome.okRemove
        · simp [hq, hf, hro]
        · simp [hq, hf, hro]
      · simp [hq, hf]
    · simp [hq, List.mem_cons]

theorem deleteFilesAux_log_nodup (fsys : FileSys) :
    ∀ (paths : List String) (k : String → PathKind),
    paths.Nodup → (∀ q ∈ paths, k q = fsys.kind q) →
    (deleteFilesAux fsys k paths).2 =
      paths.map (fun p => (deleteOneStep fsys fsys.kind p).2) := by
  intro paths
  induction paths with
  | nil => intro k _ _; rfl
  | cons p rest ih =>
    intro k hnd hk
    have hnp : p ∉ rest := (List.nodup_cons.mp hnd).1
    have hnd2 : rest.Nodup := (List.nodup_cons.mp hnd).2
    have hkp : k p = fsys.kind p := hk p (List.mem_cons_self p rest)
    have hk2 : ∀ q ∈ rest, (deleteOneStep fsys k p).1 q = fsys.kind q := by
      intro q hq
      rw [deleteOneStep_kind, if_neg]
      · exact hk q (List.mem_cons_of_mem p hq)
      · rintro ⟨rfl, -, -⟩
        exact hnp hq
    simp [deleteFilesAux, deleteOneStep_log_congr fsys k fsys.kind p hkp,
      ih _ hnd2 hk2]

/-! ## Claim C5 -/

/-- C5: `delete_specific_files` is a total function (no exception
reaches the caller), logs one line per input path keeping the input
order, removes a path from the disk exactly when it is listed, is a
regular file, and its removal raises nothing, and — on a duplicate-free
path list — logs for each path precisely the line its on-disk status
dictates: deletion for removable regular files, an error line on a
raising removal, a warning for non-files and for absent paths. -/
theorem C5_delete_specific_files_contract (fsys : FileSys)
    (paths : List String) :
    ((delete_specific_files fsys paths).2.map DelLog.path = paths) ∧
    (∀ p, (delete_specific_files fsys paths).1 p =
      if p ∈ paths ∧ fsys.kind p = PathKind.file ∧
          fsys.removeOutcome p = RemoveOutcome.okRemove
      then PathKind.absent else fsys.kind p) ∧
    (paths.Nodup → (delete_specific_files fsys paths).2 =
      paths.map (fun p => (deleteOneStep fsys fsys.kind p).2)) :=
  ⟨deleteFilesAux_paths fsys paths fsys.kind,
   fun p => deleteFilesAux_kind fsys paths fsys.kind p,
   fun hnd => deleteFilesAux_log_nodup fsys paths fsys.kind hnd
     (fun _ _ => rfl)⟩

/-- Witness for C5 on the concrete disk `fsys1` with a file, a
directory and an absent path. -/
theorem C5_delete_specific_files_contract_witness :
    ((delete_specific_files fsys1 ["a", "b", "c"]).2.map DelLog.path =
      ["a", "b", "c"]) ∧
    ((delete_specific_files fsys1 ["a", "b", "c"]).1 "a" =
      if "a" ∈ ["a", "b", "c"] ∧ fsys1.kind "a" = PathKind.file ∧
          fsys1.removeOutcome "a" = RemoveOutcome.okRemove
      then PathKind.absent else fsys1.kind "a") ∧
    ((delete_specific_files fsys1 ["a", "b", "c"]).2 =
      ["a", "b", "c"].map (fun p => (deleteOneStep fsys1 fsys1.kind p).2)) :=
  ⟨(C5_delete_specific_files_contract fsys1 ["a", "b", "c"]).1,
   (C5_delete_specific_files_contract fsys1 ["a", "b", "c"]).2.1 "a",
   (C5_delete_specific_files_contract fsys1 ["a", "b", "c"]).2.2
     (by decide)⟩

end TrelloAutomation
